import Mathlib

/-!
A formal model of the `constify` crate.

The crate provides two Rust macros, `constify!` and `try_constify!`, which expand a
sequence of declarations `const NAME: TYPE = runtime_expr => c1, c2, ...;` followed by a
body expression into a nested `match` tree: one match level per declaration, one arm per
candidate constant, with the declared name re-bound to the arm's candidate literal inside
each arm.  `constify!` (the `@normal` tree of `__impl_constify`) emits no fallback arm, so
rustc's exhaustiveness checker must accept the candidate patterns; `try_constify!` (the
`@error` tree) appends a `_ => Err("unexpected value for `NAME`")` arm at every level and
wraps the body in `Ok(...)` at the leaves.

The model has two layers, mirroring the source:
* `__impl_constify` builds the generated code as a `Code` tree (the macro expansion);
* `evalCode` evaluates a `Code` tree under Rust's evaluation order, with runtime-value
  expressions modelled as state transformers `σ → V × σ` so that evaluation order and
  short-circuiting are observable through their effects on the state.
-/

namespace Constify

/-- Environment of constant bindings in scope, innermost binding first.  It models the
nested `const NAME: TYPE = candidate;` items of the generated code. -/
abbrev Env (V : Type) := List (String × V)

/-- A runtime-value expression (`$match_val` in the source): evaluating it against a state
produces a value and a successor state; the state change models its side effects. -/
abbrev RExpr (V σ : Type) := σ → V × σ

/-- The body expression (`$block`, written `$return` in the entry macros): it is evaluated
under the constant bindings in scope and the current state, and may itself have effects. -/
abbrev BodyExpr (V σ B : Type) := Env V → σ → B × σ

/-- One declaration `const $const_var: $const_ty = $match_val => $($const_expr),+;`.
All candidate values share the Lean type `V`, which plays the role of `$const_ty`
(the type annotation has no further value-level content); the source grammar requires
at least one candidate, but no claim below depends on that. -/
structure Decl (V σ : Type) where
  name : String
  matchVal : RExpr V σ
  candidates : List V

/-- The mode token of `__impl_constify`: `@normal` (total) or `@error` (fallible). -/
inductive Mode where
  | normal
  | error

/-- Generated code.  `matchOn name scrut cands sub fb` is the `match` emitted for one
declaration: one arm `c => { const name = c; sub }` for each candidate `c` in `cands`.
Every candidate arm contains a syntactically identical copy of the sub-expansion `sub`,
because the macro repetition expands the same `$rest $block` in each arm, so the tree
stores the arm body once next to the candidate list.  In `@error` mode the match also has
the fallback arm `_ => Err(msg)`, recorded as `fb = some msg`; in `@normal` mode
`fb = none`.  `leaf body` is the `@normal` terminal (the bare block) and `okLeaf body`
the `@error` terminal (`Ok(block)`). -/
inductive Code (V σ B : Type) where
  | leaf (body : BodyExpr V σ B)
  | okLeaf (body : BodyExpr V σ B)
  | matchOn (name : String) (scrut : RExpr V σ) (cands : List V)
      (sub : Code V σ B) (fb : Option String)

/-- The recursive expander `__impl_constify`: it peels the first declaration off the
bracketed list (the first macro rule) and emits one match level (`@normal` / `@error`
rules), bottoming out at the terminal rules when the list is empty.  The `@error` fallback
message is built exactly as in the source:
`concat!("unexpected value for `", stringify!($const_var), "`")`. -/
def __impl_constify {V σ B : Type} (m : Mode) :
    List (Decl V σ) → BodyExpr V σ B → Code V σ B
  | [], body =>
    match m with
    | .normal => .leaf body
    | .error => .okLeaf body
  | d :: rest, body =>
    .matchOn d.name d.matchVal d.candidates (__impl_constify m rest body)
      (match m with
       | .normal => none
       | .error => some ("unexpected value for `" ++ d.name ++ "`"))

/-- The `constify!` entry macro: it packages the declarations into the bracketed list and
invokes `__impl_constify` in `@normal` mode (the packaging step is the identity on this
model's declaration records). -/
def constify {V σ B : Type} (decls : List (Decl V σ)) (body : BodyExpr V σ B) :
    Code V σ B :=
  __impl_constify .normal decls body

/-- The `try_constify!` entry macro: same packaging, `@error` mode. -/
def try_constify {V σ B : Type} (decls : List (Decl V σ)) (body : BodyExpr V σ B) :
    Code V σ B :=
  __impl_constify .error decls body

/-- Rust `match` arm selection over the candidate patterns: try the arms top to bottom and
return the candidate of the first arm whose pattern equals the scrutinee value. -/
def selectArm {V : Type} [DecidableEq V] : List V → V → Option V
  | [], _ => none
  | c :: cs, v => if c = v then some c else selectArm cs v

/-- Index (0-based) of the arm `selectArm` takes: the first candidate equal to the
scrutinee value. -/
def selectIdx {V : Type} [DecidableEq V] : List V → V → Option Nat
  | [], _ => none
  | c :: cs, v => if c = v then some 0 else (selectIdx cs v).map (· + 1)

/-- Outcome of evaluating generated code.  `ok b s` means a leaf was reached with body
value `b` and final state `s` (a bare block value in `@normal` mode, `Ok(block)` in
`@error` mode); `fail msg s` is the `Err(msg)` produced by an `@error` fallback arm;
`stuck` marks a match whose scrutinee value matches no arm in a match with no fallback —
rustc rejects such a match at compile time as non-exhaustive, so `stuck` corresponds to
code that cannot be produced by a successful build. -/
inductive EvalResult (σ B : Type) where
  | ok (val : B) (st : σ)
  | fail (msg : String) (st : σ)
  | stuck
deriving DecidableEq

/-- Evaluation of generated code under Rust semantics: a `match` first evaluates its
scrutinee (performing its side effects on the state exactly once), then selects the first
matching arm; the arm re-binds the declared name to that arm's candidate literal — not to
the scrutinee expression — and evaluation continues inside the arm. -/
def evalCode {V σ B : Type} [DecidableEq V] : Code V σ B → Env V → σ → EvalResult σ B
  | .leaf body, env, s => let p := body env s; .ok p.1 p.2
  | .okLeaf body, env, s => let p := body env s; .ok p.1 p.2
  | .matchOn name scrut cands sub fb, env, s =>
    let p := scrut s
    match selectArm cands p.1 with
    | some c => evalCode sub ((name, c) :: env) p.2
    | none =>
      match fb with
      | some msg => .fail msg p.2
      | none => .stuck

/-- Run the code generated by `constify!` from the empty binding environment. -/
def runConstify {V σ B : Type} [DecidableEq V] (decls : List (Decl V σ))
    (body : BodyExpr V σ B) (s : σ) : EvalResult σ B :=
  evalCode (constify decls body) [] s

/-- Run the code generated by `try_constify!` from the empty binding environment. -/
def runTryConstify {V σ B : Type} [DecidableEq V] (decls : List (Decl V σ))
    (body : BodyExpr V σ B) (s : σ) : EvalResult σ B :=
  evalCode (try_constify decls body) [] s

/-- Every declaration's runtime value, evaluated in declaration order threading the state,
equals some element of its candidate list. -/
def allMatch {V σ : Type} [DecidableEq V] : List (Decl V σ) → σ → Prop
  | [], _ => True
  | d :: rest, s => (d.matchVal s).1 ∈ d.candidates ∧ allMatch rest (d.matchVal s).2

/-- `allMatch` is decidable, so concrete instances can be checked by evaluation. -/
def decAllMatch {V σ : Type} [DecidableEq V] :
    (decls : List (Decl V σ)) → (s : σ) → Decidable (allMatch decls s)
  | [], _ => isTrue trivial
  | d :: rest, s =>
    haveI : Decidable (allMatch rest (d.matchVal s).2) := decAllMatch rest _
    inferInstanceAs (Decidable ((d.matchVal s).1 ∈ d.candidates ∧
      allMatch rest (d.matchVal s).2))

instance {V σ : Type} [DecidableEq V] (decls : List (Decl V σ)) (s : σ) :
    Decidable (allMatch decls s) :=
  decAllMatch decls s

/-- The state after evaluating every declaration's runtime-value expression once, in
declaration order. -/
def stateAfter {V σ : Type} : List (Decl V σ) → σ → σ
  | [], s => s
  | d :: rest, s => stateAfter rest (d.matchVal s).2

/-- Name of the first declaration, scanning in declared order and threading the state,
whose runtime value matches none of its candidates (`none` when all declarations match). -/
def firstMismatch {V σ : Type} [DecidableEq V] : List (Decl V σ) → σ → Option String
  | [], _ => none
  | d :: rest, s =>
    if (d.matchVal s).1 ∈ d.candidates then firstMismatch rest (d.matchVal s).2
    else some d.name

/-- The bindings accumulated along the path to a leaf, in declaration order: each
declaration's name paired with its runtime value (which, in a taken arm, equals the arm's
candidate). -/
def pathBindings {V σ : Type} : List (Decl V σ) → σ → Env V
  | [], _ => []
  | d :: rest, s => (d.name, (d.matchVal s).1) :: pathBindings rest (d.matchVal s).2

/-- Remove duplicate candidates, keeping the first occurrence of each value. -/
def dedupFirstAux {V : Type} [DecidableEq V] (seen : List V) : List V → List V
  | [] => []
  | c :: cs => if c ∈ seen then dedupFirstAux seen cs else c :: dedupFirstAux (c :: seen) cs

/-- Remove duplicate candidates from a list, keeping first occurrences. -/
def dedupFirst {V : Type} [DecidableEq V] (l : List V) : List V :=
  dedupFirstAux [] l

/-- A declaration with duplicate candidate occurrences removed. -/
def dedupDecl {V σ : Type} [DecidableEq V] (d : Decl V σ) : Decl V σ :=
  { d with candidates := dedupFirst d.candidates }

/-- Rustc accepts the generated code: every match level either has a fallback arm or its
candidate patterns cover every value of the scrutinee's type (rustc's match-exhaustiveness
check). -/
def compiles {V σ B : Type} : Code V σ B → Prop
  | .leaf _ => True
  | .okLeaf _ => True
  | .matchOn _ _ cands sub fb => (fb.isSome = true ∨ ∀ v : V, v ∈ cands) ∧ compiles sub

/-- Number of textual copies of the body in the generated code (one per leaf of the
expansion tree; each candidate arm contains its own copy of the sub-expansion, and
`@error` fallback arms contain no body). -/
def leafCount {V σ B : Type} : Code V σ B → Nat
  | .leaf _ => 1
  | .okLeaf _ => 1
  | .matchOn _ _ cands sub _ => cands.length * leafCount sub

/-- Nesting depth of the generated match tree (number of match levels). -/
def depth {V σ B : Type} : Code V σ B → Nat
  | .leaf _ => 0
  | .okLeaf _ => 0
  | .matchOn _ _ _ sub _ => depth sub + 1

/-- The error message of a failure outcome, if any. -/
def failureMsg {σ B : Type} : EvalResult σ B → Option String
  | .fail m _ => some m
  | _ => none

/-! ### Basic lemmas about arm selection and deduplication -/

theorem selectArm_of_mem {V : Type} [DecidableEq V] {l : List V} {v : V} (h : v ∈ l) :
    selectArm l v = some v := by
  induction l with
  | nil => cases h
  | cons c cs ih =>
    by_cases hc : c = v
    · simp [selectArm, hc]
    · rcases List.mem_cons.mp h with h1 | h1
      · exact absurd h1.symm hc
      · simp [selectArm, hc, ih h1]

theorem selectArm_of_not_mem {V : Type} [DecidableEq V] {l : List V} {v : V} (h : v ∉ l) :
    selectArm l v = none := by
  induction l with
  | nil => rfl
  | cons c cs ih =>
    have hc : ¬ c = v := fun hcv => h (hcv ▸ List.mem_cons_self c cs)
    have hcs : v ∉ cs := fun hm => h (List.mem_cons_of_mem c hm)
    simp [selectArm, hc, ih hcs]

theorem selectIdx_first {V : Type} [DecidableEq V] :
    ∀ (l1 : List V) (l2 : List V) (v : V), v ∉ l1 →
      selectIdx (l1 ++ v :: l2) v = some l1.length
  | [], l2, v, _ => by simp [selectIdx]
  | c :: l1, l2, v, h => by
    have hc : ¬ c = v := fun hcv => h (hcv ▸ List.mem_cons_self c l1)
    have hl1 : v ∉ l1 := fun hm => h (List.mem_cons_of_mem c hm)
    simp [selectIdx, hc, selectIdx_first l1 l2 v hl1]

theorem selectArm_eq_selectIdx {V : Type} [DecidableEq V] :
    ∀ (l : List V) (v : V), selectArm l v = (selectIdx l v).bind (fun i => l[i]?)
  | [], _ => rfl
  | c :: cs, v => by
    by_cases hc : c = v
    · simp [selectArm, selectIdx, hc]
    · simp only [selectArm, selectIdx, if_neg hc]
      rw [selectArm_eq_selectIdx cs v]
      cases selectIdx cs v <;> simp

theorem mem_dedupFirstAux {V : Type} [DecidableEq V] {v : V} :
    ∀ (l seen : List V), v ∈ dedupFirstAux seen l ↔ v ∈ l ∧ v ∉ seen
  | [], seen => by simp [dedupFirstAux]
  | c :: cs, seen => by
    by_cases hc : c ∈ seen
    · rw [dedupFirstAux, if_pos hc, mem_dedupFirstAux cs seen]
      constructor
      · exact fun ⟨h1, h2⟩ => ⟨List.mem_cons_of_mem c h1, h2⟩
      · rintro ⟨h1, h2⟩
        rcases List.mem_cons.mp h1 with h3 | h3
        · exact absurd (h3 ▸ hc) h2
        · exact ⟨h3, h2⟩
    · rw [dedupFirstAux, if_neg hc]
      constructor
      · intro h1
        rcases List.mem_cons.mp h1 with h3 | h3
        · exact ⟨h3 ▸ List.mem_cons_self c cs, h3 ▸ hc⟩
        · obtain ⟨h4, h5⟩ := (mem_dedupFirstAux cs (c :: seen)).mp h3
          exact ⟨List.mem_cons_of_mem c h4,
            fun hm => h5 (List.mem_cons_of_mem c hm)⟩
      · rintro ⟨h1, h2⟩
        rcases List.mem_cons.mp h1 with h3 | h3
        · exact h3 ▸ List.mem_cons_self _ _
        · by_cases hvc : v = c
          · exact hvc ▸ List.mem_cons_self _ _
          · exact List.mem_cons_of_mem _ ((mem_dedupFirstAux cs (c :: seen)).mpr
              ⟨h3, fun hm => (List.mem_cons.mp hm).elim hvc h2⟩)

theorem mem_dedupFirst {V : Type} [DecidableEq V] {v : V} (l : List V) :
    v ∈ dedupFirst l ↔ v ∈ l := by
  simp [dedupFirst, mem_dedupFirstAux]

/-! ### Evaluation lemmas -/

/-- When every declaration's runtime value matches a candidate, either tree evaluates the
body under the path bindings, in the state reached after evaluating every runtime
expression once in order. -/
theorem eval_impl_of_allMatch {V σ B : Type} [DecidableEq V] (m : Mode) :
    ∀ (decls : List (Decl V σ)) (body : BodyExpr V σ B) (s : σ) (env : Env V),
      allMatch decls s →
      evalCode (__impl_constify m decls body) env s =
        .ok (body ((pathBindings decls s).reverse ++ env) (stateAfter decls s)).1
            (body ((pathBindings decls s).reverse ++ env) (stateAfter decls s)).2
  | [], body, s, env, _ => by
    cases m <;> simp [__impl_constify, evalCode, pathBindings, stateAfter]
  | d :: rest, body, s, env, h => by
    obtain ⟨h1, h2⟩ := h
    simp only [__impl_constify, evalCode, selectArm_of_mem h1]
    rw [eval_impl_of_allMatch m rest body _ _ h2]
    simp [pathBindings, stateAfter, List.append_assoc]

/-- If every declaration in `pre` matches and the next declaration `d` mismatches, the
`@error` tree fails with `d`'s message, in the state reached after evaluating only the
runtime expressions of `pre` and `d`; the result does not depend on the declarations
after `d` or on the body. -/
theorem eval_error_mismatch {V σ B : Type} [DecidableEq V] :
    ∀ (pre : List (Decl V σ)) (d : Decl V σ) (s : σ) (env : Env V),
      allMatch pre s →
      (d.matchVal (stateAfter pre s)).1 ∉ d.candidates →
      ∀ (rest : List (Decl V σ)) (body : BodyExpr V σ B),
        evalCode (__impl_constify .error (pre ++ d :: rest) body) env s =
          .fail ("unexpected value for `" ++ d.name ++ "`")
            ((d.matchVal (stateAfter pre s)).2)
  | [], d, s, env, _, hm, rest, body => by
    simp only [stateAfter] at hm ⊢
    simp [__impl_constify, evalCode, selectArm_of_not_mem hm]
  | d0 :: pre, d, s, env, h, hm, rest, body => by
    obtain ⟨h1, h2⟩ := h
    simp only [stateAfter] at hm ⊢
    simp only [List.cons_append, __impl_constify, evalCode, selectArm_of_mem h1]
    exact eval_error_mismatch pre d _ _ h2 hm rest body

/-- The `@normal` tree never produces a failure outcome: it has no fallback arms. -/
theorem eval_normal_ne_fail {V σ B : Type} [DecidableEq V] :
    ∀ (decls : List (Decl V σ)) (body : BodyExpr V σ B) (s : σ) (env : Env V)
      (msg : String) (s' : σ),
      evalCode (__impl_constify .normal decls body) env s ≠ .fail msg s'
  | [], body, s, env, msg, s' => by
    simp [__impl_constify, evalCode]
  | d :: rest, body, s, env, msg, s' => by
    simp only [__impl_constify, evalCode]
    cases hsel : selectArm d.candidates ((d.matchVal s).1) with
    | some c => exact eval_normal_ne_fail rest body _ _ msg s'
    | none => simp

/-- If some declaration's runtime value (evaluated in order) matches no candidate, the
`@normal` tree gets stuck: no arm matches and there is no fallback, so rustc would have
rejected the match as non-exhaustive; in particular no default arm is ever taken. -/
theorem eval_normal_stuck {V σ B : Type} [DecidableEq V] :
    ∀ (decls : List (Decl V σ)) (body : BodyExpr V σ B) (s : σ) (env : Env V),
      ¬ allMatch decls s →
      evalCode (__impl_constify .normal decls body) env s = .stuck
  | [], _, s, _, h => absurd trivial h
  | d :: rest, body, s, env, h => by
    by_cases h1 : (d.matchVal s).1 ∈ d.candidates
    · simp only [__impl_constify, evalCode, selectArm_of_mem h1]
      exact eval_normal_stuck rest body _ _ (fun h2 => h ⟨h1, h2⟩)
    · simp [__impl_constify, evalCode, selectArm_of_not_mem h1]

/-- If the first mismatching declaration (scanning in declared order) has name `n`, the
`@error` tree fails with exactly the message naming `n`. -/
theorem eval_error_firstMismatch {V σ B : Type} [DecidableEq V] :
    ∀ (decls : List (Decl V σ)) (body : BodyExpr V σ B) (s : σ) (env : Env V)
      (n : String),
      firstMismatch decls s = some n →
      ∃ s', evalCode (__impl_constify .error decls body) env s =
        .fail ("unexpected value for `" ++ n ++ "`") s'
  | [], _, s, _, n, h => by simp [firstMismatch] at h
  | d :: rest, body, s, env, n, h => by
    by_cases h1 : (d.matchVal s).1 ∈ d.candidates
    · rw [firstMismatch, if_pos h1] at h
      simp only [__impl_constify, evalCode, selectArm_of_mem h1]
      exact eval_error_firstMismatch rest body _ _ n h
    · rw [firstMismatch, if_neg h1] at h
      obtain rfl : d.name = n := Option.some.inj h
      refine ⟨(d.matchVal s).2, ?_⟩
      simp [__impl_constify, evalCode, selectArm_of_not_mem h1]

/-- Removing duplicate candidate occurrences from every declaration does not change the
evaluation outcome of either tree. -/
theorem eval_dedup {V σ B : Type} [DecidableEq V] (m : Mode) :
    ∀ (decls : List (Decl V σ)) (body : BodyExpr V σ B) (s : σ) (env : Env V),
      evalCode (__impl_constify m (decls.map dedupDecl) body) env s =
        evalCode (__impl_constify m decls body) env s
  | [], _, _, _ => rfl
  | d :: rest, body, s, env => by
    by_cases h1 : (d.matchVal s).1 ∈ d.candidates
    · have h2 : (d.matchVal s).1 ∈ dedupFirst d.candidates :=
        (mem_dedupFirst d.candidates).mpr h1
      simp only [List.map_cons, __impl_constify, dedupDecl, evalCode,
        selectArm_of_mem h1, selectArm_of_mem h2]
      exact eval_dedup m rest body _ _
    · have h2 : (d.matchVal s).1 ∉ dedupFirst d.candidates :=
        fun hm => h1 ((mem_dedupFirst d.candidates).mp hm)
      cases m <;>
        simp [List.map_cons, __impl_constify, dedupDecl, evalCode,
          selectArm_of_not_mem h1, selectArm_of_not_mem h2]

/-- Depth of the generated tree: one match level per declaration. -/
theorem depth_impl {V σ B : Type} (m : Mode) :
    ∀ (decls : List (Decl V σ)) (body : BodyExpr V σ B),
      depth (__impl_constify m decls body) = decls.length
  | [], body => by cases m <;> simp [__impl_constify, depth]
  | d :: rest, body => by
    simp [__impl_constify, depth, depth_impl m rest body]

/-- Leaf count of the generated tree: the product of the candidate-list lengths. -/
theorem leafCount_impl {V σ B : Type} (m : Mode) :
    ∀ (decls : List (Decl V σ)) (body : BodyExpr V σ B),
      leafCount (__impl_constify m decls body) =
        (decls.map (fun d => d.candidates.length)).prod
  | [], body => by cases m <;> simp [__impl_constify, leafCount]
  | d :: rest, body => by
    simp [__impl_constify, leafCount, leafCount_impl m rest body]

/-- If some declaration's candidates do not cover the whole value type, the `@normal`
tree contains a match with no fallback whose patterns are not exhaustive. -/
theorem not_compiles_of_uncovered {V σ B : Type} :
    ∀ (decls : List (Decl V σ)) (body : BodyExpr V σ B),
      (∃ d ∈ decls, ∃ v : V, v ∉ d.candidates) →
      ¬ compiles (__impl_constify .normal decls body)
  | [], _, h, _ => by
    obtain ⟨d, hd, _⟩ := h
    cases hd
  | d0 :: rest, body, h, hc => by
    simp only [__impl_constify, compiles] at hc
    obtain ⟨hcov, hsub⟩ := hc
    obtain ⟨d, hd, v, hv⟩ := h
    rcases List.mem_cons.mp hd with h3 | h3
    · rcases hcov with h4 | h4
      · simp [Option.isSome] at h4
      · exact hv (h3 ▸ h4 v)
    · exact not_compiles_of_uncovered rest body ⟨d, h3, v, hv⟩ hsub

/-- Along a fully matching path, the leaf bindings pair each declaration, in order, with
its own name and a value from its own candidate list. -/
theorem pathBindings_forall2 {V σ : Type} [DecidableEq V] :
    ∀ (decls : List (Decl V σ)) (s : σ), allMatch decls s →
      List.Forall₂ (fun (d : Decl V σ) (p : String × V) =>
        p.1 = d.name ∧ p.2 ∈ d.candidates) decls (pathBindings decls s)
  | [], _, _ => List.Forall₂.nil
  | d :: rest, s, h =>
    List.Forall₂.cons ⟨rfl, h.1⟩ (pathBindings_forall2 rest ((d.matchVal s).2) h.2)

/-! ### Concrete example programs, used by the witnesses

`declA`/`declB`/`addBody` model the fallible example of the crate documentation:
`const A: u32 = a => 1, 2; const B: u32 = b => 3, 4;` with body `A + B`, at `a = 1`,
`b = 3`.  The `trace` variants log each evaluated expression in a `List String` state so
that evaluation order and short-circuiting are visible. -/

/-- Declaration `const A: u32 = 1 => 1, 2;` (state-independent runtime value `1`). -/
def declA : Decl Nat Unit := ⟨"A", fun s => (1, s), [1, 2]⟩

/-- Declaration `const B: u32 = 3 => 3, 4;`. -/
def declB : Decl Nat Unit := ⟨"B", fun s => (3, s), [3, 4]⟩

/-- Declaration `const A: u32 = 3 => 1, 2;` whose runtime value matches no candidate. -/
def declBad : Decl Nat Unit := ⟨"A", fun s => (3, s), [1, 2]⟩

/-- Body `A + B`, reading the constants from the binding environment. -/
def addBody : BodyExpr Nat Unit Nat :=
  fun env s => (((env.lookup "A").getD 0) + ((env.lookup "B").getD 0), s)

/-- Like `declA`, but its runtime expression logs `"A"` when evaluated. -/
def traceA : Decl Nat (List String) := ⟨"A", fun s => (1, s ++ ["A"]), [1, 2]⟩

/-- Like `declB`, but its runtime expression logs `"B"` when evaluated. -/
def traceB : Decl Nat (List String) := ⟨"B", fun s => (3, s ++ ["B"]), [3, 4]⟩

/-- A first declaration that logs `"A"` and produces the out-of-range value `9`. -/
def traceBadA : Decl Nat (List String) := ⟨"A", fun s => (9, s ++ ["A"]), [1, 2]⟩

/-- Body `A + B` that logs `"body"` when evaluated. -/
def traceBody : BodyExpr Nat (List String) Nat :=
  fun env s => (((env.lookup "A").getD 0) + ((env.lookup "B").getD 0), s ++ ["body"])

/-- A `bool` declaration whose single candidate `true` does not cover `false`. -/
def declBool : Decl Bool Unit := ⟨"A", fun s => (false, s), [true]⟩

/-- A trivial body for the `bool` example. -/
def boolBody : BodyExpr Bool Unit Nat := fun _ s => (0, s)

/-- A declaration whose runtime value is the initial state itself, so two runs can differ
only in the mismatching runtime value. -/
def declState : Decl Nat Nat := ⟨"A", fun s => (s, s), [1, 2]⟩

/-- Body returning the constant `A`. -/
def stateBody : BodyExpr Nat Nat Nat := fun env s => ((env.lookup "A").getD 0, s)

/-- A declaration with a duplicated candidate: `const A: u32 = 1 => 1, 1, 2;`. -/
def declDup : Decl Nat Unit := ⟨"A", fun s => (1, s), [1, 1, 2]⟩

/-! ### The claims -/

/-- C1: for every declaration sequence in which each declaration's runtime-value
expression evaluates (in declared order, threading its effects) to some element of its
candidate list, and for every body, `try_constify` evaluates to exactly the same outcome
as `constify`, and that outcome is a success carrying the computed body value: on
all-matching inputs the two modes agree on the computed body result. -/
theorem claim_C1 {V σ B : Type} [DecidableEq V] (decls : List (Decl V σ))
    (body : BodyExpr V σ B) (s : σ) (h : allMatch decls s) :
    runTryConstify decls body s = runConstify decls body s ∧
    ∃ b s', runConstify decls body s = .ok b s' := by
  have hn := eval_impl_of_allMatch .normal decls body s [] h
  have he := eval_impl_of_allMatch .error decls body s [] h
  unfold runConstify runTryConstify constify try_constify
  rw [hn, he]
  exact ⟨rfl, _, _, rfl⟩

/-- C1 witness: the documented fallible example `A = 1 => 1, 2; B = 3 => 3, 4` matches
everywhere, and the two modes agree on it. -/
theorem claim_C1_witness :
    allMatch [declA, declB] () ∧
    (runTryConstify [declA, declB] addBody () = runConstify [declA, declB] addBody () ∧
     ∃ b s', runConstify [declA, declB] addBody () = .ok b s') :=
  ⟨by decide, claim_C1 [declA, declB] addBody () (by decide)⟩

/-- C2: whenever scanning the declarations in declared order (threading effects) finds a
first declaration whose runtime value matches none of its candidates, `try_constify`
returns a failure whose message is exactly `"unexpected value for `" ++ name ++ "`"` for
that declaration's name; being an equation on the single outcome of the run, at most one
such failure message is produced per invocation. -/
theorem claim_C2 {V σ B : Type} [DecidableEq V] (decls : List (Decl V σ))
    (body : BodyExpr V σ B) (s : σ) (n : String)
    (h : firstMismatch decls s = some n) :
    ∃ s', runTryConstify decls body s =
      .fail ("unexpected value for `" ++ n ++ "`") s' :=
  eval_error_firstMismatch decls body s [] n h

/-- C2 witness: `A = 3 => 1, 2` mismatches first, and the run fails with the literal
message naming `A`. -/
theorem claim_C2_witness :
    firstMismatch [declBad, declB] () = some "A" ∧
    ∃ s', runTryConstify [declBad, declB] addBody () =
      .fail "unexpected value for `A`" s' :=
  ⟨by decide, claim_C2 [declBad, declB] addBody () "A" (by decide)⟩

/-- C3: in `try_constify`, if every declaration of the prefix `pre` matches and the next
declaration `d` mismatches, the run fails with `d`'s message in the state reached after
evaluating only the runtime expressions of `pre` and `d` — the right-hand side mentions
neither `rest` nor `body`, so no later declaration's runtime expression and not the body
is ever evaluated (none of their effects reach the final state), and the failure names
the mismatching declaration.  Taking `pre = []` gives the first-declaration case. -/
theorem claim_C3 {V σ B : Type} [DecidableEq V] (pre : List (Decl V σ)) (d : Decl V σ)
    (rest : List (Decl V σ)) (body : BodyExpr V σ B) (s : σ)
    (h1 : allMatch pre s) (h2 : (d.matchVal (stateAfter pre s)).1 ∉ d.candidates) :
    runTryConstify (pre ++ d :: rest) body s =
      .fail ("unexpected value for `" ++ d.name ++ "`")
        ((d.matchVal (stateAfter pre s)).2) :=
  eval_error_mismatch pre d s [] h1 h2 rest body

/-- C3 witness: with a mismatching first declaration, the final trace is `["A"]` — the
later declaration `B` and the body never logged anything — and the failure names `A`. -/
theorem claim_C3_witness :
    allMatch ([] : List (Decl Nat (List String))) [] ∧
    (traceBadA.matchVal (stateAfter ([] : List (Decl Nat (List String))) [])).1 ∉
      traceBadA.candidates ∧
    runTryConstify ([] ++ traceBadA :: [traceB]) traceBody [] =
      .fail "unexpected value for `A`" ["A"] :=
  ⟨trivial, by decide,
   by exact claim_C3 [] traceBadA [traceB] traceBody [] trivial (by decide)⟩

/-- C4: on the empty declaration sequence, `constify` expands to exactly the body (a bare
leaf) and `try_constify` to `Ok(body)`; running them yields the body's value, and the
fallible run can never fail. -/
theorem claim_C4 {V σ B : Type} [DecidableEq V] (body : BodyExpr V σ B) (s : σ) :
    constify ([] : List (Decl V σ)) body = Code.leaf body ∧
    try_constify ([] : List (Decl V σ)) body = Code.okLeaf body ∧
    runConstify [] body s = .ok (body [] s).1 (body [] s).2 ∧
    runTryConstify [] body s = .ok (body [] s).1 (body [] s).2 ∧
    ∀ (msg : String) (s' : σ), runTryConstify ([] : List (Decl V σ)) body s ≠ .fail msg s' := by
  refine ⟨rfl, rfl, rfl, rfl, ?_⟩
  intro msg s' h
  simp [runTryConstify, try_constify, __impl_constify, evalCode] at h

/-- C5: in either mode, the generated tree has depth equal to the number of declarations
and leaf count (number of specialized body instantiations) equal to the product of the
candidate-list lengths over all declarations. -/
theorem claim_C5 {V σ B : Type} (m : Mode) (decls : List (Decl V σ))
    (body : BodyExpr V σ B) :
    depth (__impl_constify m decls body) = decls.length ∧
    leafCount (__impl_constify m decls body) =
      (decls.map (fun d => d.candidates.length)).prod :=
  ⟨depth_impl m decls body, leafCount_impl m decls body⟩

/-- C6: in either mode, on a fully matching input the run reaches a leaf and evaluates the
body under the path bindings, and those bindings pair each declaration, in order, with its
own name and a value drawn from its own candidate list — i.e. each name is bound to the
candidate literal of the arm selected at its level, and the leaf sees exactly the
combination of candidates selected along the path. -/
theorem claim_C6 {V σ B : Type} [DecidableEq V] (m : Mode) (decls : List (Decl V σ))
    (body : BodyExpr V σ B) (s : σ) (h : allMatch decls s) :
    evalCode (__impl_constify m decls body) [] s =
      .ok (body (pathBindings decls s).reverse (stateAfter decls s)).1
          (body (pathBindings decls s).reverse (stateAfter decls s)).2 ∧
    List.Forall₂ (fun (d : Decl V σ) (p : String × V) =>
      p.1 = d.name ∧ p.2 ∈ d.candidates) decls (pathBindings decls s) := by
  have he := eval_impl_of_allMatch m decls body s [] h
  rw [List.append_nil] at he
  exact ⟨he, pathBindings_forall2 decls s h⟩

/-- C6 witness: on the documented example the leaf is evaluated under bindings pairing
`A` and `B` with candidates from their own lists. -/
theorem claim_C6_witness :
    allMatch [declA, declB] () ∧
    (evalCode (__impl_constify .error [declA, declB] addBody) [] () =
      .ok (addBody (pathBindings [declA, declB] ()).reverse
             (stateAfter [declA, declB] ())).1
          (addBody (pathBindings [declA, declB] ()).reverse
             (stateAfter [declA, declB] ())).2 ∧
     List.Forall₂ (fun (d : Decl Nat Unit) (p : String × Nat) =>
       p.1 = d.name ∧ p.2 ∈ d.candidates) [declA, declB]
       (pathBindings [declA, declB] ())) :=
  ⟨by decide, claim_C6 .error [declA, declB] addBody () (by decide)⟩

/-- C7: in both modes, on a matching input the state handed to the body is
`stateAfter decls s`, which by definition applies each declaration's runtime-value
expression exactly once, in the order the declarations were written, and depends only on
those expressions — not on which candidate arm was selected at any level. -/
theorem claim_C7 {V σ B : Type} [DecidableEq V] (decls : List (Decl V σ))
    (body : BodyExpr V σ B) (s : σ) (h : allMatch decls s) :
    (∃ b, runConstify decls body s =
      .ok b (body (pathBindings decls s).reverse (stateAfter decls s)).2) ∧
    (∃ b, runTryConstify decls body s =
      .ok b (body (pathBindings decls s).reverse (stateAfter decls s)).2) := by
  have hn := eval_impl_of_allMatch .normal decls body s [] h
  have he := eval_impl_of_allMatch .error decls body s [] h
  rw [List.append_nil] at hn he
  exact ⟨⟨_, hn⟩, ⟨_, he⟩⟩

/-- C7 witness: with logging runtime expressions, both modes finish with the trace
produced by evaluating `A` then `B` then the body, each once. -/
theorem claim_C7_witness :
    allMatch [traceA, traceB] ([] : List String) ∧
    ((∃ b, runConstify [traceA, traceB] traceBody [] =
      .ok b (traceBody (pathBindings [traceA, traceB] []).reverse
        (stateAfter [traceA, traceB] [])).2) ∧
     (∃ b, runTryConstify [traceA, traceB] traceBody [] =
      .ok b (traceBody (pathBindings [traceA, traceB] []).reverse
        (stateAfter [traceA, traceB] [])).2)) :=
  ⟨by decide, claim_C7 [traceA, traceB] traceBody [] (by decide)⟩

/-- C8: in total mode, if some declaration's candidates do not cover every value of the
scrutinee type, the generated code is rejected by the exhaustiveness check (`compiles`
fails); and total mode never produces a runtime failure outcome (it has no fallback arm)
and never silently selects a default — on a mismatching input evaluation is stuck rather
than producing a value. -/
theorem claim_C8 {V σ B : Type} [DecidableEq V] (decls : List (Decl V σ))
    (body : BodyExpr V σ B) (h : ∃ d ∈ decls, ∃ v : V, v ∉ d.candidates) :
    ¬ compiles (constify decls body) ∧
    (∀ (s : σ) (msg : String) (s' : σ), runConstify decls body s ≠ .fail msg s') ∧
    (∀ s : σ, ¬ allMatch decls s → runConstify decls body s = .stuck) :=
  ⟨not_compiles_of_uncovered decls body h,
   fun s msg s' => eval_normal_ne_fail decls body s [] msg s',
   fun s hs => eval_normal_stuck decls body s [] hs⟩

/-- C8 witness: a `bool` declaration listing only `true` does not cover `false`, so its
total-mode expansion does not compile, never fails at runtime, and gets stuck on the
uncovered value. -/
theorem claim_C8_witness :
    (∃ d ∈ [declBool], ∃ v : Bool, v ∉ d.candidates) ∧
    (¬ compiles (constify [declBool] boolBody) ∧
     (∀ (s : Unit) (msg : String) (s' : Unit),
        runConstify [declBool] boolBody s ≠ .fail msg s') ∧
     (∀ s : Unit, ¬ allMatch [declBool] s →
        runConstify [declBool] boolBody s = .stuck)) :=
  ⟨⟨declBool, List.mem_cons_self declBool [], false, by decide⟩,
   claim_C8 [declBool] boolBody
     ⟨declBool, List.mem_cons_self declBool [], false, by decide⟩⟩

/-- C9: the failure message of `try_constify` depends only on the name of the mismatching
declaration, not on the mismatching runtime value: two runs whose prefixes both match and
which both mismatch at the same declaration `d` (possibly with different out-of-range
values) return the identical failure message, namely the one naming `d`. -/
theorem claim_C9 {V σ B : Type} [DecidableEq V] (pre rest : List (Decl V σ))
    (d : Decl V σ) (body : BodyExpr V σ B) (s1 s2 : σ)
    (h1 : allMatch pre s1) (h2 : allMatch pre s2)
    (hm1 : (d.matchVal (stateAfter pre s1)).1 ∉ d.candidates)
    (hm2 : (d.matchVal (stateAfter pre s2)).1 ∉ d.candidates) :
    failureMsg (runTryConstify (pre ++ d :: rest) body s1) =
      failureMsg (runTryConstify (pre ++ d :: rest) body s2) ∧
    failureMsg (runTryConstify (pre ++ d :: rest) body s1) =
      some ("unexpected value for `" ++ d.name ++ "`") := by
  have e1 := eval_error_mismatch pre d s1 [] h1 hm1 rest body
  have e2 := eval_error_mismatch pre d s2 [] h2 hm2 rest body
  unfold runTryConstify try_constify
  rw [e1, e2]
  exact ⟨rfl, rfl⟩

/-- C9 witness: runtime values `5` and `7` both miss the candidates `1, 2`, and the two
runs produce the identical error message. -/
theorem claim_C9_witness :
    allMatch ([] : List (Decl Nat Nat)) 5 ∧ allMatch ([] : List (Decl Nat Nat)) 7 ∧
    (declState.matchVal (stateAfter ([] : List (Decl Nat Nat)) 5)).1 ∉
      declState.candidates ∧
    (declState.matchVal (stateAfter ([] : List (Decl Nat Nat)) 7)).1 ∉
      declState.candidates ∧
    (failureMsg (runTryConstify ([] ++ declState :: []) stateBody 5) =
       failureMsg (runTryConstify ([] ++ declState :: []) stateBody 7) ∧
     failureMsg (runTryConstify ([] ++ declState :: []) stateBody 5) =
       some ("unexpected value for `" ++ declState.name ++ "`")) :=
  ⟨trivial, trivial, by decide, by decide,
   claim_C9 [] [] declState stateBody 5 7 trivial trivial (by decide) (by decide)⟩

/-- C10: duplicate candidates are harmless.  In both modes, evaluation of the expansion
with duplicate candidate occurrences removed (keeping first occurrences) equals evaluation
of the original expansion; and when a value `v` occurs in the candidate list (here after a
duplicate-free prefix `l1`, with possible further occurrences in `l2`), the arm taken is
the one at the index of its first occurrence, binding the candidate `v` — as witnessed by
the arm-index function agreeing with the arm selection used by evaluation. -/
theorem claim_C10 {V σ B : Type} [DecidableEq V] (m : Mode) (decls : List (Decl V σ))
    (body : BodyExpr V σ B) (env : Env V) (s : σ) (l1 l2 : List V) (v : V)
    (hv : v ∉ l1) :
    evalCode (__impl_constify m (decls.map dedupDecl) body) env s =
      evalCode (__impl_constify m decls body) env s ∧
    selectIdx (l1 ++ v :: l2) v = some l1.length ∧
    selectArm (l1 ++ v :: l2) v =
      (selectIdx (l1 ++ v :: l2) v).bind (fun i => (l1 ++ v :: l2)[i]?) ∧
    selectArm (l1 ++ v :: l2) v = some v := by
  refine ⟨eval_dedup m decls body s env, selectIdx_first l1 l2 v hv,
    selectArm_eq_selectIdx (l1 ++ v :: l2) v, selectArm_of_mem ?_⟩
  simp

/-- C10 witness: the list `A = 1 => 1, 1, 2` with its duplicate removed evaluates
identically, and a scrutinee value occurring twice selects the arm of its first
occurrence. -/
theorem claim_C10_witness :
    ((1 : Nat) ∉ [2, 3]) ∧
    (evalCode (__impl_constify .error ([declDup].map dedupDecl) addBody) [] () =
       evalCode (__impl_constify .error [declDup] addBody) [] () ∧
     selectIdx ([2, 3] ++ 1 :: [1]) 1 = some ([2, 3] : List Nat).length ∧
     selectArm ([2, 3] ++ 1 :: [1]) 1 =
       (selectIdx ([2, 3] ++ 1 :: [1]) 1).bind (fun i => ([2, 3] ++ 1 :: [1])[i]?) ∧
     selectArm ([2, 3] ++ 1 :: [1]) 1 = some 1) :=
  ⟨by decide, claim_C10 .error [declDup] addBody [] () [2, 3] [1] 1 (by decide)⟩

end Constify
